import Mathlib

/-!
Shallow embedding of the commit / job-monitoring and HA-synchronization
protocol client of the jenkins-pa-automation repository.

The embedding translates the Python control flow of:
  * `src/utils_pa.py`            — `commit_changes` (shared commit utility)
  * `src/steps/step_03_ha_config.py` — `Step03_HAConfig.commit_changes`
  * `src/steps/step_10_commit.py`    — `Step06_CommitSync._commit_changes`,
                                        `_force_sync_config`, `_wait_for_sync_completion`,
                                        `execute`
  * `src/steps/step_06_commit.py`    — `Step06_CommitSync._commit_changes`,
                                        `_force_sync_config`, `_wait_for_sync_completion`
  * `src/steps/step_04_identify_active.py` — `Step04_IdentifyActive.execute`

HTTP requests are replaced by oracles: a function from the query data
(iteration counter, host, job id) to the parsed outcome of the request.
Wall-clock time is virtual: each `time.sleep(15)` advances an explicit
`elapsed` counter by 15 while requests cost 0, so `time.time() - start_time`
becomes `elapsed`.  Unbounded `while` loops are given a fuel parameter;
`none` means the fuel ran out before the loop exited.
-/

namespace PA

/-- Parsed outcome of one job-status poll (`type=op`, `show jobs id`).
`exc` models a raised `requests` exception, `httpError` a non-200 status,
`noJobInfo` a 200 response whose XML has no `job` element, `running p`
a job with `status = ACT` and progress `p`, `finished r` a job with
`status = FIN` and result text `r`, `otherStatus s` any other status text. -/
inductive JobPollResp where
  | exc
  | httpError
  | noJobInfo
  | running (progress : String)
  | finished (result : String)
  | otherStatus (s : String)
deriving DecidableEq, Repr

/-- Parsed outcome of one commit request (`type=commit`).
`exc` models a raised exception, `httpError` a non-200 status, `noResult`
a 200 response with no `result` element, and `resultWith job` a 200
response whose `result` element has `result.findtext("job") = job`
(`none` when the `job` child is absent). -/
inductive CommitResp where
  | exc
  | httpError
  | noResult
  | resultWith (job : Option String)
deriving DecidableEq, Repr

/-- A tracked commit job in `Step03_HAConfig.commit_changes`, keyed by
`(host, jobid)` as in `unique_key = f"{device['host']}_{jobid}"`. -/
structure Job where
  host : String
  jobid : String
deriving DecidableEq, Repr

/-- A tracked commit job in `utils_pa.commit_changes`.  There the code
stores `result.findtext("job")` without a truthiness check, so the job id
can be `None`; we keep it as `Option String`. -/
structure UJob where
  host : String
  jobid : Option String
deriving DecidableEq, Repr

/-- `ready_devices[host] = ...`: a Python dict keyed by host, modelled as a
duplicate-free list of hosts with insert-if-absent. -/
def insertReady (h : String) (l : List String) : List String :=
  if h ∈ l then l else l ++ [h]

/-! ## Step03_HAConfig.commit_changes (step_03_ha_config.py lines 207-313) -/

/-- The commit-start phase of `Step03_HAConfig.commit_changes` for one
device: the device is entered into `jobid_dict` only when the commit
response is HTTP 200, has a `result` element, and `if jobid:` holds
(`jobid` is neither `None` nor the empty string).  A raised exception is
caught and the loop `continue`s; a non-200 response and a missing
`result` element are silently skipped. -/
def step03Track (r : CommitResp) : Option String :=
  match r with
  | .resultWith (some j) => if j = "" then none else some j
  | _ => none

/-- The jobs collected by the commit-start loop of
`Step03_HAConfig.commit_changes`, in device order. -/
def step03StartJobs (devs : List (String × CommitResp)) : List Job :=
  devs.filterMap (fun d => (step03Track d.2).map (fun j => ⟨d.1, j⟩))

/-- Oracle giving the parsed job-status response for a query
`(iteration, host, jobid)`. -/
abbrev Step03Oracle := Nat → String → String → JobPollResp

/-- Result of one pass of the inner `for unique_key, job_info in
jobid_dict.items()` loop of `Step03_HAConfig.commit_changes`:
the still-pending jobs (completed ones removed), the updated
`ready_devices` host list, the `(host, jobid)` status queries issued,
and whether a request raised (which the surrounding `try` turns into
`return False`). -/
structure Step03Round where
  pending : List Job
  ready : List String
  polls : List (String × String)
  aborted : Bool
deriving Repr

/-- One polling pass of `Step03_HAConfig.commit_changes`: each pending job
is queried at its own `(host, jobid)`; `FIN`/`OK` inserts the host into
`ready_devices` and marks the job completed, `FIN`/non-OK only marks it
completed, `ACT`, a non-200 response, a missing `job` element and any
other status leave it pending, and an exception aborts the whole monitor. -/
def step03Round (o : Step03Oracle) (iter : Nat) :
    List Job → List String → Step03Round
  | [], ready => ⟨[], ready, [], false⟩
  | j :: rest, ready =>
    match o iter j.host j.jobid with
    | .exc => ⟨rest, ready, [(j.host, j.jobid)], true⟩
    | .finished r =>
        let rr := step03Round o iter rest
          (if r = "OK" then insertReady j.host ready else ready)
        ⟨rr.pending, rr.ready, (j.host, j.jobid) :: rr.polls, rr.aborted⟩
    | _ =>
        let rr := step03Round o iter rest ready
        ⟨j :: rr.pending, rr.ready, (j.host, j.jobid) :: rr.polls, rr.aborted⟩

/-- The monitoring loop of `Step03_HAConfig.commit_changes`
(`while jobid_dict and (time.time() - start_time) < max_wait_time:` with
`max_wait_time = 300`): on each iteration the wall clock is compared to
the 300-second deadline; after a pass, `return True` fires when
`len(ready_devices) == len(pa_credentials)`, the loop exits when
`jobid_dict` is empty, and otherwise `time.sleep(15)` advances the clock.
Returns `(result, ready_devices, status queries)`; `none` = out of fuel. -/
def step03Monitor (o : Step03Oracle) (N : Nat) :
    Nat → Nat → Nat → List Job → List String →
    Option (Bool × List String × List (String × String))
  | 0, _, _, _, _ => none
  | fuel+1, iter, elapsed, pending, ready =>
    if pending = [] ∨ 300 ≤ elapsed then
      some (decide (ready.length = N), ready, [])
    else
      let rr := step03Round o iter pending ready
      if rr.aborted then some (false, rr.ready, rr.polls)
      else if rr.ready.length = N then some (true, rr.ready, rr.polls)
      else if rr.pending = [] then
        some (decide (rr.ready.length = N), rr.ready, rr.polls)
      else
        (step03Monitor o N fuel (iter+1) (elapsed+15) rr.pending rr.ready).map
          (fun out => (out.1, out.2.1, rr.polls ++ out.2.2))

/-- `Step03_HAConfig.commit_changes`: start commits on every device
(collecting jobs per `step03Track`), `return False` when no job started,
then monitor.  `devs` pairs each device host with the parsed outcome of
its commit request; `N = len(pa_credentials)` is the device count. -/
def step03CommitChanges (devs : List (String × CommitResp)) (o : Step03Oracle)
    (fuel : Nat) : Option (Bool × List String × List (String × String)) :=
  let jobs := step03StartJobs devs
  if jobs = [] then some (false, [], [])
  else step03Monitor o devs.length fuel 0 0 jobs []

/-- Overall boolean result of `Step03_HAConfig.commit_changes`. -/
def step03Result (devs : List (String × CommitResp)) (o : Step03Oracle)
    (fuel : Nat) : Option Bool :=
  (step03CommitChanges devs o fuel).map (fun out => out.1)

/-- Final `ready_devices` key set of `Step03_HAConfig.commit_changes`. -/
def step03Ready (devs : List (String × CommitResp)) (o : Step03Oracle)
    (fuel : Nat) : List String :=
  ((step03CommitChanges devs o fuel).map (fun out => out.2.1)).getD []

/-- All `(host, jobid)` job-status queries issued by
`Step03_HAConfig.commit_changes`. -/
def step03Polls (devs : List (String × CommitResp)) (o : Step03Oracle)
    (fuel : Nat) : List (String × String) :=
  ((step03CommitChanges devs o fuel).map (fun out => out.2.2)).getD []

/-! ## utils_pa.commit_changes (utils_pa.py lines 64-188) -/

/-- The commit-start phase of `utils_pa.commit_changes`: a raised
exception or a non-200 status makes the whole function `return False`
immediately; a 200 response with no `result` element is silently skipped;
a 200 response with a `result` element is tracked with
`jobid = result.findtext("job")` — there is no `if jobid:` guard here, so
a missing `job` child is tracked with job id `None`. -/
def utilsStart : List (String × CommitResp) → Except Bool (List UJob)
  | [] => .ok []
  | (h, r) :: rest =>
    match r with
    | .exc => .error false
    | .httpError => .error false
    | .noResult => utilsStart rest
    | .resultWith jo => (utilsStart rest).map (fun l => ⟨h, jo⟩ :: l)

/-- Oracle for `utils_pa.commit_changes` job-status queries; the job id in
the query can be the tracked `None`. -/
abbrev UtilsOracle := Nat → String → Option String → JobPollResp

/-- One pass of the inner polling loop of `utils_pa.commit_changes`:
`abort = some false` when either a request raised (caught by the outer
`except`, `return False`) or a job reported `FIN` with a non-`OK` result
(`return False` on the spot, later devices not polled this pass). -/
structure UtilsRound where
  pending : List UJob
  ready : List String
  polls : List (String × Option String)
  abort : Option Bool
deriving Repr

/-- One polling pass of `utils_pa.commit_changes`. -/
def utilsRound (o : UtilsOracle) (iter : Nat) :
    List UJob → List String → UtilsRound
  | [], ready => ⟨[], ready, [], none⟩
  | j :: rest, ready =>
    match o iter j.host j.jobid with
    | .exc => ⟨rest, ready, [(j.host, j.jobid)], some false⟩
    | .finished r =>
        if r = "OK" then
          let rr := utilsRound o iter rest (insertReady j.host ready)
          ⟨rr.pending, rr.ready, (j.host, j.jobid) :: rr.polls, rr.abort⟩
        else
          ⟨rest, ready, [(j.host, j.jobid)], some false⟩
    | _ =>
        let rr := utilsRound o iter rest ready
        ⟨j :: rr.pending, rr.ready, (j.host, j.jobid) :: rr.polls, rr.abort⟩

/-- The monitoring loop of `utils_pa.commit_changes`
(`while jobid_dict and (time.time() - start_time) < max_wait_time:` with
`max_wait_time = 600`): exits with `True` when `jobid_dict` empties,
with `False` on the 600-second deadline, immediately with `False` on a
`FIN`/non-`OK` result or an exception, and otherwise sleeps 15 seconds
between passes.  `none` = out of fuel. -/
def utilsMonitor (o : UtilsOracle) :
    Nat → Nat → Nat → List UJob → List String →
    Option (Bool × List String × List (String × Option String))
  | 0, _, _, _, _ => none
  | fuel+1, iter, elapsed, pending, ready =>
    if pending = [] ∨ 600 ≤ elapsed then
      some (decide (pending = []), ready, [])
    else
      let rr := utilsRound o iter pending ready
      match rr.abort with
      | some b => some (b, rr.ready, rr.polls)
      | none =>
        if rr.pending = [] then some (true, rr.ready, rr.polls)
        else
          (utilsMonitor o fuel (iter+1) (elapsed+15) rr.pending rr.ready).map
            (fun out => (out.1, out.2.1, rr.polls ++ out.2.2))

/-- `utils_pa.commit_changes`: start commits (aborting the whole call on a
transport failure or non-200 response), `return False` when `jobid_dict`
is empty, then monitor. -/
def utilsCommitChanges (devs : List (String × CommitResp)) (o : UtilsOracle)
    (fuel : Nat) : Option (Bool × List String × List (String × Option String)) :=
  match utilsStart devs with
  | .error b => some (b, [], [])
  | .ok jobs =>
    if jobs = [] then some (false, [], [])
    else utilsMonitor o fuel 0 0 jobs []

/-- Overall boolean result of `utils_pa.commit_changes`. -/
def utilsResult (devs : List (String × CommitResp)) (o : UtilsOracle)
    (fuel : Nat) : Option Bool :=
  (utilsCommitChanges devs o fuel).map (fun out => out.1)

/-- All `(host, jobid)` job-status queries issued by
`utils_pa.commit_changes`; the queried job id is `none` for a device
tracked without a job identifier. -/
def utilsPolls (devs : List (String × CommitResp)) (o : UtilsOracle)
    (fuel : Nat) : List (String × Option String) :=
  ((utilsCommitChanges devs o fuel).map (fun out => out.2.2)).getD []

/-- Final `ready_devices` key set of `utils_pa.commit_changes`. -/
def utilsReady (devs : List (String × CommitResp)) (o : UtilsOracle)
    (fuel : Nat) : List String :=
  ((utilsCommitChanges devs o fuel).map (fun out => out.2.1)).getD []

/-! ## Step06_CommitSync._commit_changes (step_10_commit.py lines 120-204) -/

/-- The monitoring loop of `Step06_CommitSync._commit_changes` in
`step_10_commit.py`: `while jobid:` — `jobid` is a non-empty string that
is never modified inside the loop, so the loop has no deadline check and
exits only on `FIN` (success or failure) or on an exception.  A non-200
response, a missing `job` element and an unrecognized status loop again
without sleeping; `ACT` sleeps 15 seconds.  The virtual clock `elapsed`
is returned together with the result so that the wall-clock time consumed
is observable; `none` in the first component = the loop is still running
after `fuel` iterations. -/
def step10Monitor (o : Nat → JobPollResp) :
    Nat → Nat → Nat → Option Bool × Nat × Nat
  | 0, _, elapsed => (none, elapsed, 0)
  | fuel+1, iter, elapsed =>
    match o iter with
    | .exc => (some false, elapsed, 1)
    | .httpError =>
      let m := step10Monitor o fuel (iter+1) elapsed
      (m.1, m.2.1, m.2.2 + 1)
    | .noJobInfo =>
      let m := step10Monitor o fuel (iter+1) elapsed
      (m.1, m.2.1, m.2.2 + 1)
    | .running _ =>
      let m := step10Monitor o fuel (iter+1) (elapsed+15)
      (m.1, m.2.1, m.2.2 + 1)
    | .finished r => (some (decide (r = "OK")), elapsed, 1)
    | .otherStatus _ =>
      let m := step10Monitor o fuel (iter+1) elapsed
      (m.1, m.2.1, m.2.2 + 1)

/-- The commit phase of `Step06_CommitSync._commit_changes` in
`step_10_commit.py`: a raised exception, a non-200 status, a missing
`result` element or a falsy job id (`None` or `""`) each fail with one
HTTP request made; otherwise the `while jobid:` monitor runs.  Returns
`(result, number of HTTP requests made)`; result `none` = the monitor
loop was still running after `fuel` polls. -/
def step10CommitPart (c : CommitResp) (o : Nat → JobPollResp) (fuel : Nat) :
    Option Bool × Nat :=
  match c with
  | .exc => (some false, 1)
  | .httpError => (some false, 1)
  | .noResult => (some false, 1)
  | .resultWith none => (some false, 1)
  | .resultWith (some j) =>
    if j = "" then (some false, 1)
    else
      let m := step10Monitor o fuel 0 0
      (m.1, m.2.2 + 1)

/-! ## HA sync orchestrators
(`_force_sync_config` / `_wait_for_sync_completion` of
step_06_commit.py lines 191-307 and step_10_commit.py lines 206-298) -/

/-- Parsed outcome of one HA-state request
(`show high-availability state`): `exc` a raised exception, `httpError` a
non-200 status, `state s` a 200 response where
`root.findtext(".//group/running-sync") = s` (`none` when the node is
absent). -/
inductive SyncCheckResp where
  | exc
  | httpError
  | state (s : Option String)
deriving DecidableEq, Repr

/-- Parsed outcome of the sync-to-remote trigger request. -/
inductive TriggerResp where
  | exc
  | httpError
  | ok
deriving DecidableEq, Repr

/-- The `_wait_for_sync_completion` loop, common shape of both variants
(step_06_commit.py uses 12 checks, step_10_commit.py 8): each check
sleeps 15 s then polls the sync state; `synchronized` → success,
everything else (in-progress synonyms, unknown states, non-200) →
keep polling; an exception → `False`; exhausting the checks → `False`.
Returns `(result, number of polls made)`. -/
def waitForSyncLoop (o : Nat → SyncCheckResp) : Nat → Nat → Bool × Nat
  | 0, _ => (false, 0)
  | k+1, idx =>
    match o idx with
    | .exc => (false, 1)
    | .httpError =>
      let m := waitForSyncLoop o k (idx+1)
      (m.1, m.2 + 1)
    | .state s =>
      if s = some "synchronized" then (true, 1)
      else
        let m := waitForSyncLoop o k (idx+1)
        (m.1, m.2 + 1)

/-- `Step06_CommitSync._wait_for_sync_completion` of step_06_commit.py:
`max_checks = 12`. -/
def step06WaitForSync (o : Nat → SyncCheckResp) : Bool × Nat :=
  waitForSyncLoop o 12 0

/-- `Step06_CommitSync._wait_for_sync_completion` of step_10_commit.py:
`max_checks = 8`. -/
def step10WaitForSync (o : Nat → SyncCheckResp) : Bool × Nat :=
  waitForSyncLoop o 8 0

/-- `Step06_CommitSync._force_sync_config` of step_06_commit.py:
inspect the sync state once; `synchronized` → immediate success with no
trigger and no further poll; `synchronization in progress` → wait/poll
only; `not synchronized` → issue the sync-to-remote trigger (exactly one
request), then wait/poll (a failed trigger fails immediately); any other
state → `unknown`, failure.  Returns
`(result, trigger requests issued, wait polls issued)`. -/
def step06ForceSync (init : SyncCheckResp) (trig : TriggerResp)
    (o : Nat → SyncCheckResp) : Bool × Nat × Nat :=
  match init with
  | .exc => (false, 0, 0)
  | .httpError => (false, 0, 0)
  | .state s =>
    if s = some "synchronized" then (true, 0, 0)
    else if s = some "synchronization in progress" then
      ((step06WaitForSync o).1, 0, (step06WaitForSync o).2)
    else if s = some "not synchronized" then
      match trig with
      | .exc => (false, 1, 0)
      | .httpError => (false, 1, 0)
      | .ok => ((step06WaitForSync o).1, 1, (step06WaitForSync o).2)
    else (false, 0, 0)

/-- `Step06_CommitSync._force_sync_config` of step_10_commit.py: same
state machine, except that an unrecognized state falls off the end of the
`if`/`elif` chain and the Python function returns `None` (modelled as
`none`). -/
def step10ForceSync (init : SyncCheckResp) (trig : TriggerResp)
    (o : Nat → SyncCheckResp) : Option Bool × Nat × Nat :=
  match init with
  | .exc => (some false, 0, 0)
  | .httpError => (some false, 0, 0)
  | .state s =>
    if s = some "synchronized" then (some true, 0, 0)
    else if s = some "synchronization in progress" then
      (some (step10WaitForSync o).1, 0, (step10WaitForSync o).2)
    else if s = some "not synchronized" then
      match trig with
      | .exc => (some false, 1, 0)
      | .httpError => (some false, 1, 0)
      | .ok => (some (step10WaitForSync o).1, 1, (step10WaitForSync o).2)
    else (none, 0, 0)

/-! ## Step06_CommitSync (step_06_commit.py) commit monitor and the two
`execute` methods -/

/-- The deadline-bounded commit monitor of
`Step06_CommitSync._commit_changes` in step_06_commit.py
(`while time.time() - start_time < max_wait_time:` with 300 s): a non-200
response, missing job info and an unknown status sleep 10 s and retry;
`ACT` sleeps 15 s; `FIN` is terminal; timeout → `False`.  Returns
`(result, polls made)`. -/
def step06CommitMonitor (o : Nat → JobPollResp) :
    Nat → Nat → Nat → Option Bool × Nat
  | 0, _, _ => (none, 0)
  | fuel+1, iter, elapsed =>
    if 300 ≤ elapsed then (some false, 0)
    else
      match o iter with
      | .exc => (some false, 1)
      | .httpError =>
        let m := step06CommitMonitor o fuel (iter+1) (elapsed+10)
        (m.1, m.2 + 1)
      | .noJobInfo =>
        let m := step06CommitMonitor o fuel (iter+1) (elapsed+10)
        (m.1, m.2 + 1)
      | .running _ =>
        let m := step06CommitMonitor o fuel (iter+1) (elapsed+15)
        (m.1, m.2 + 1)
      | .finished r => (some (decide (r = "OK")), 1)
      | .otherStatus _ =>
        let m := step06CommitMonitor o fuel (iter+1) (elapsed+10)
        (m.1, m.2 + 1)

/-- `Step06_CommitSync._commit_changes` of step_06_commit.py: the commit
request plus the deadline-bounded monitor.  Returns
`(result, number of HTTP requests made)`. -/
def step06CommitChanges (c : CommitResp) (o : Nat → JobPollResp)
    (fuel : Nat) : Option Bool × Nat :=
  match c with
  | .exc => (some false, 1)
  | .httpError => (some false, 1)
  | .noResult => (some false, 1)
  | .resultWith none => (some false, 1)
  | .resultWith (some j) =>
    if j = "" then (some false, 1)
    else
      let m := step06CommitMonitor o fuel 0 0
      (m.1, m.2 + 1)

/-- The observable outcome of `Step06_CommitSync.execute` in
step_10_commit.py: the returned boolean, the `commit_skipped` /
`sync_skipped` flags of the persisted completion record, and the host
of every commit / job-status / sync HTTP request issued. -/
structure Step10Out where
  result : Bool
  commitSkipped : Bool
  syncSkipped : Bool
  requestHosts : List String
deriving DecidableEq, Repr

/-- `Step06_CommitSync.execute` of step_10_commit.py: loads
`active_fw_list` and `config_results`; if no value of `config_results`
equals `'success'`, skips commit and sync entirely (no requests), writes
the record with both skip flags set and returns `True`.  Otherwise runs
`_commit_changes` and `_force_sync_config` against
`active_fw_list[0]['host']`, failing the step when either fails.
An empty `active_fw_list` makes `active_fw_list[0]` raise, caught by the
outer `except` → `False`. -/
def step10Execute (activeHosts : List String)
    (configResults : List (String × String)) (c : CommitResp)
    (o : Nat → JobPollResp) (init : SyncCheckResp) (trig : TriggerResp)
    (so : Nat → SyncCheckResp) (fuel : Nat) : Option Step10Out :=
  match activeHosts with
  | [] => some ⟨false, false, false, []⟩
  | host :: _ =>
    if configResults.any (fun kv => kv.2 == "success") then
      let cp := step10CommitPart c o fuel
      match cp.1 with
      | none => none
      | some false => some ⟨false, false, false, List.replicate cp.2 host⟩
      | some true =>
        let sp := step10ForceSync init trig so
        let hosts := List.replicate cp.2 host ++
          List.replicate (1 + sp.2.1 + sp.2.2) host
        match sp.1 with
        | some true => some ⟨true, false, false, hosts⟩
        | _ => some ⟨false, false, false, hosts⟩
    else some ⟨true, true, true, []⟩

/-- `Step06_CommitSync.execute` of step_06_commit.py: always commits
against `active_fw_list[0]['host']`; a sync failure is tolerated (warned,
step still returns `True`).  Returns the step result and the host of
every HTTP request issued. -/
def step06Execute (activeHosts : List String) (c : CommitResp)
    (o : Nat → JobPollResp) (init : SyncCheckResp) (trig : TriggerResp)
    (so : Nat → SyncCheckResp) (fuel : Nat) : Option (Bool × List String) :=
  match activeHosts with
  | [] => some (false, [])
  | host :: _ =>
    let cp := step06CommitChanges c o fuel
    match cp.1 with
    | none => none
    | some false => some (false, List.replicate cp.2 host)
    | some true =>
      let sp := step06ForceSync init trig so
      some (true, List.replicate cp.2 host ++
        List.replicate (1 + sp.2.1 + sp.2.2) host)

/-! ## Step04_IdentifyActive.execute (step_04_identify_active.py) -/

/-- Parsed outcome of one HA-state query during active-node
identification: `exc` a raised exception (including a missing `text`
attribute), `httpError` a non-200 status, `noState` a 200 response with
no `state` element, `state s` the stripped text of the `state` element. -/
inductive HAStateResp where
  | exc
  | httpError
  | noState
  | state (s : String)
deriving DecidableEq, Repr

/-- ASCII lowering of one character — the relevant fragment of Python's
`str.lower()` for the ASCII HA-state vocabulary. -/
def lowerChar (c : Char) : Char :=
  if 'A' ≤ c ∧ c ≤ 'Z' then Char.ofNat (c.toNat + 32) else c

/-- `ha_state.lower() == "active"`; every other outcome (passive,
standby, unexpected state, missing state, non-200, exception) is
not active for this attempt. -/
def isActiveResp : HAStateResp → Bool
  | .state s => s.data.map lowerChar == "active".data
  | _ => false

/-- One attempt of `Step04_IdentifyActive.execute`: query the devices in
input order; on the first `active`, append it and `break` (remaining
devices not queried).  Returns `(active device indices, queried device
indices)`. -/
def step04ScanL (resps : Nat → HAStateResp) : List Nat → List Nat × List Nat
  | [] => ([], [])
  | i :: rest =>
    if isActiveResp (resps i) then ([i], [i])
    else
      let out := step04ScanL resps rest
      (out.1, i :: out.2)

/-- The retry loop of `Step04_IdentifyActive.execute` (`for attempt in
range(max_attempts)` with `max_attempts = 5`): scan all devices; if an
active one was found, `break`; otherwise sleep 15 s and retry.  Returns
the found list and the `(attempt, device index)` query trace. -/
def step04Loop (o : Nat → Nat → HAStateResp) (n : Nat) :
    Nat → Nat → List Nat × List (Nat × Nat)
  | 0, _ => ([], [])
  | remaining+1, attempt =>
    let found := step04ScanL (o attempt) (List.range n)
    if found.1 ≠ [] then
      (found.1, found.2.map (fun i => (attempt, i)))
    else
      let rest := step04Loop o n remaining (attempt+1)
      (rest.1, found.2.map (fun i => (attempt, i)) ++ rest.2)

/-- `Step04_IdentifyActive.execute` over `n` devices (device `i` =
`pa_credentials[i]`): run up to 5 attempts; if no device ever reported
active, fall back to the first device (`pa_credentials[0]`) with a logged
warning.  Returns `(persisted active_fw_list as indices, fallback-warning
flag, query trace)`; `none` models the `IndexError` of
`pa_credentials[0]` on an empty device list (caught by the outer
`except`, step returns `False` and persists nothing). -/
def step04Execute (o : Nat → Nat → HAStateResp) (n : Nat) :
    Option (List Nat × Bool × List (Nat × Nat)) :=
  let r := step04Loop o n 5 0
  if r.1 ≠ [] then some (r.1, false, r.2)
  else if n = 0 then none
  else some ([0], true, r.2)

/-- The persisted `active_fw_list` of `Step04_IdentifyActive.execute`,
as device indices. -/
def step04Active (o : Nat → Nat → HAStateResp) (n : Nat) :
    Option (List Nat) :=
  (step04Execute o n).map (fun out => out.1)

/-- Whether `Step04_IdentifyActive.execute` used the fresh-deployment
fallback (first device, with a logged warning). -/
def step04Fallback (o : Nat → Nat → HAStateResp) (n : Nat) : Option Bool :=
  (step04Execute o n).map (fun out => out.2.1)

/-- The `(attempt, device index)` HA-state queries issued by
`Step04_IdentifyActive.execute`. -/
def step04Queries (o : Nat → Nat → HAStateResp) (n : Nat) :
    List (Nat × Nat) :=
  ((step04Execute o n).map (fun out => out.2.2)).getD []

/-! ## Properties -/

theorem insertReady_nodup (h : String) (l : List String) (hl : l.Nodup) :
    (insertReady h l).Nodup := by
  unfold insertReady
  split
  · exact hl
  · simpa [List.nodup_append] using ⟨hl, by assumption⟩

theorem insertReady_subset (h : String) (l : List String) :
    insertReady h l ⊆ h :: l := by
  unfold insertReady
  split
  · exact fun x hx => List.mem_cons_of_mem _ hx
  · intro x hx
    rcases List.mem_append.mp hx with hx | hx
    · exact List.mem_cons_of_mem _ hx
    · simp only [List.mem_singleton] at hx
      simp [hx]

theorem mem_insertReady (x h : String) (l : List String) :
    x ∈ insertReady h l ↔ x = h ∨ x ∈ l := by
  unfold insertReady
  split
  · constructor
    · exact fun hx => Or.inr hx
    · rintro (rfl | hx)
      · assumption
      · exact hx
  · simp [List.mem_append, or_comm]

/-! ## Termination of the deadline-checked monitors -/

/-- Deadline argument for the `Step03_HAConfig.commit_changes` monitor:
once the virtual clock plus the remaining sleep budget covers the
300-second deadline, the loop yields a result.  Every pass that recurses
first checked `elapsed < 300` and then slept 15 seconds. -/
theorem step03Monitor_isSome (o : Step03Oracle) (N : Nat) :
    ∀ f iter elapsed pending ready, 300 ≤ elapsed + 15 * f →
    (step03Monitor o N (f+1) iter elapsed pending ready).isSome := by
  intro f
  induction f with
  | zero =>
    intro iter elapsed pending ready h
    simp only [Nat.mul_zero, Nat.add_zero] at h
    unfold step03Monitor
    rw [if_pos (Or.inr h)]
    rfl
  | succ g ih =>
    intro iter elapsed pending ready h
    unfold step03Monitor
    split
    · rfl
    · dsimp only
      split
      · rfl
      · split
        · rfl
        · split
          · rfl
          · exact Option.isSome_map.trans
              (ih (iter+1) (elapsed+15) _ _ (by omega))

/-- Deadline argument for the `utils_pa.commit_changes` monitor, with its
600-second deadline and 15-second sleeps. -/
theorem utilsMonitor_isSome (o : UtilsOracle) :
    ∀ f iter elapsed pending ready, 600 ≤ elapsed + 15 * f →
    (utilsMonitor o (f+1) iter elapsed pending ready).isSome := by
  intro f
  induction f with
  | zero =>
    intro iter elapsed pending ready h
    simp only [Nat.mul_zero, Nat.add_zero] at h
    unfold utilsMonitor
    rw [if_pos (Or.inr h)]
    rfl
  | succ g ih =>
    intro iter elapsed pending ready h
    unfold utilsMonitor
    split
    · rfl
    · dsimp only
      split
      · rfl
      · split
        · rfl
        · exact Option.isSome_map.trans
            (ih (iter+1) (elapsed+15) _ _ (by omega))

/-! ### Invariants of the step_03 polling pass -/

theorem step03Round_pending_subset (o : Step03Oracle) (iter : Nat) :
    ∀ pending ready, (step03Round o iter pending ready).pending ⊆ pending := by
  intro pending
  induction pending with
  | nil => intro ready; simp [step03Round]
  | cons j rest ih =>
    intro ready
    cases h : o iter j.host j.jobid <;>
      simp only [step03Round, h]
    case exc => exact List.subset_cons_self _ _
    case finished r => exact (ih _).trans (List.subset_cons_self _ _)
    all_goals exact List.cons_subset_cons j (ih _)

theorem step03Round_polls (o : Step03Oracle) (iter : Nat) :
    ∀ pending ready, ∀ p ∈ (step03Round o iter pending ready).polls,
      ∃ j ∈ pending, p = (j.host, j.jobid) := by
  intro pending
  induction pending with
  | nil => intro ready p hp; simp [step03Round] at hp
  | cons j rest ih =>
    intro ready p hp
    cases h : o iter j.host j.jobid <;>
      simp only [step03Round, h] at hp
    case exc =>
      simp only [List.mem_singleton] at hp
      exact ⟨j, List.mem_cons_self _ _, hp⟩
    all_goals
      rcases List.mem_cons.mp hp with hp | hp
      · exact ⟨j, List.mem_cons_self _ _, hp⟩
      · obtain ⟨j', hj', hpe⟩ := ih _ p hp
        exact ⟨j', List.mem_cons_of_mem _ hj', hpe⟩

theorem step03Round_ready_mem (o : Step03Oracle) (iter : Nat) :
    ∀ pending ready, ∀ x ∈ (step03Round o iter pending ready).ready,
      x ∈ ready ∨ ∃ j ∈ pending, j.host = x ∧
        o iter j.host j.jobid = .finished "OK" := by
  intro pending
  induction pending with
  | nil => intro ready x hx; simp [step03Round] at hx; exact Or.inl hx
  | cons j rest ih =>
    intro ready x hx
    cases h : o iter j.host j.jobid <;>
      simp only [step03Round, h] at hx
    case exc => exact Or.inl hx
    case finished r =>
      rcases ih _ x hx with hx' | ⟨j', hj', he, ho⟩
      · by_cases hOK : r = "OK"
        · rw [if_pos hOK] at hx'
          rcases (mem_insertReady x j.host ready).mp hx' with rfl | hx''
          · exact Or.inr ⟨j, List.mem_cons_self _ _, rfl, by rw [h, hOK]⟩
          · exact Or.inl hx''
        · rw [if_neg hOK] at hx'
          exact Or.inl hx'
      · exact Or.inr ⟨j', List.mem_cons_of_mem _ hj', he, ho⟩
    all_goals
      rcases ih _ x hx with hx' | ⟨j', hj', he, ho⟩
      · exact Or.inl hx'
      · exact Or.inr ⟨j', List.mem_cons_of_mem _ hj', he, ho⟩

theorem step03Round_ready_nodup (o : Step03Oracle) (iter : Nat) :
    ∀ pending ready, ready.Nodup →
      (step03Round o iter pending ready).ready.Nodup := by
  intro pending
  induction pending with
  | nil => intro ready hr; simpa [step03Round] using hr
  | cons j rest ih =>
    intro ready hr
    cases h : o iter j.host j.jobid <;>
      simp only [step03Round, h]
    case exc => exact hr
    case finished r =>
      apply ih
      split
      · exact insertReady_nodup _ _ hr
      · exact hr
    all_goals exact ih _ hr

/-! ### Invariants of the step_03 monitoring loop -/

/-- Every `True` outcome of the step_03 monitor comes with a full
`ready_devices` set: `return True` fires only on
`len(ready_devices) == len(pa_credentials)`. -/
theorem step03Monitor_true_ready (o : Step03Oracle) (N : Nat) :
    ∀ fuel iter elapsed pending ready b rd tr,
      step03Monitor o N fuel iter elapsed pending ready = some (b, rd, tr) →
      b = true → rd.length = N := by
  intro fuel
  induction fuel with
  | zero =>
    intro iter elapsed pending ready b rd tr heq
    simp [step03Monitor] at heq
  | succ f ih =>
    intro iter elapsed pending ready b rd tr heq hb
    rw [step03Monitor] at heq
    split at heq
    · simp only [Option.some_inj, Prod.mk.injEq] at heq
      obtain ⟨hb', hrd, -⟩ := heq
      subst hb'
      subst hrd
      exact of_decide_eq_true hb
    · dsimp only at heq
      split at heq
      · simp only [Option.some_inj, Prod.mk.injEq] at heq
        obtain ⟨hb', -, -⟩ := heq
        subst hb'
        simp at hb
      · split at heq
        · simp only [Option.some_inj, Prod.mk.injEq] at heq
          obtain ⟨-, hrd, -⟩ := heq
          subst hrd
          assumption
        · split at heq
          · simp only [Option.some_inj, Prod.mk.injEq] at heq
            obtain ⟨hb', hrd, -⟩ := heq
            subst hb'
            subst hrd
            exact of_decide_eq_true hb
          · rw [Option.map_eq_some'] at heq
            obtain ⟨⟨b', rd', tr'⟩, hout, hfe⟩ := heq
            simp only [Prod.mk.injEq] at hfe
            obtain ⟨hb', hrd, -⟩ := hfe
            subst hb'
            subst hrd
            exact ih _ _ _ _ _ _ _ hout hb

/-- A host is in the final `ready_devices` of the step_03 monitor only if
it was ready at entry or some status poll of a job OWNED BY THAT HOST
returned `FIN`/`OK` — another device's response never marks it ready. -/
theorem step03Monitor_ready_mem (o : Step03Oracle) (N : Nat) :
    ∀ fuel iter elapsed pending ready b rd tr,
      step03Monitor o N fuel iter elapsed pending ready = some (b, rd, tr) →
      ∀ x ∈ rd, x ∈ ready ∨ ∃ i, ∃ j ∈ pending, j.host = x ∧
        o i x j.jobid = .finished "OK" := by
  intro fuel
  induction fuel with
  | zero =>
    intro iter elapsed pending ready b rd tr heq
    simp [step03Monitor] at heq
  | succ f ih =>
    intro iter elapsed pending ready b rd tr heq x hx
    have hmem : ∀ y ∈ (step03Round o iter pending ready).ready,
        y ∈ ready ∨ ∃ i, ∃ j ∈ pending, j.host = y ∧
          o i y j.jobid = .finished "OK" := by
      intro y hy
      rcases step03Round_ready_mem o iter pending ready y hy with h | ⟨j, hj, he, ho⟩
      · exact Or.inl h
      · rw [he] at ho
        exact Or.inr ⟨iter, j, hj, he, ho⟩
    rw [step03Monitor] at heq
    split at heq
    · simp only [Option.some_inj, Prod.mk.injEq] at heq
      obtain ⟨-, hrd, -⟩ := heq
      subst hrd
      exact Or.inl hx
    · dsimp only at heq
      split at heq
      · simp only [Option.some_inj, Prod.mk.injEq] at heq
        obtain ⟨-, hrd, -⟩ := heq
        subst hrd
        exact hmem x hx
      · split at heq
        · simp only [Option.some_inj, Prod.mk.injEq] at heq
          obtain ⟨-, hrd, -⟩ := heq
          subst hrd
          exact hmem x hx
        · split at heq
          · simp only [Option.some_inj, Prod.mk.injEq] at heq
            obtain ⟨-, hrd, -⟩ := heq
            subst hrd
            exact hmem x hx
          · rw [Option.map_eq_some'] at heq
            obtain ⟨⟨b', rd', tr'⟩, hout, hfe⟩ := heq
            simp only [Prod.mk.injEq] at hfe
            obtain ⟨-, hrd, -⟩ := hfe
            subst hrd
            rcases ih _ _ _ _ _ _ _ hout x hx with h | ⟨i, j, hj, he, ho⟩
            · exact hmem x h
            · exact Or.inr ⟨i, j, step03Round_pending_subset o iter pending ready hj,
                he, ho⟩

/-- The step_03 monitor keeps `ready_devices` duplicate-free (it is a
Python dict keyed by host). -/
theorem step03Monitor_ready_nodup (o : Step03Oracle) (N : Nat) :
    ∀ fuel iter elapsed pending ready b rd tr,
      step03Monitor o N fuel iter elapsed pending ready = some (b, rd, tr) →
      ready.Nodup → rd.Nodup := by
  intro fuel
  induction fuel with
  | zero =>
    intro iter elapsed pending ready b rd tr heq
    simp [step03Monitor] at heq
  | succ f ih =>
    intro iter elapsed pending ready b rd tr heq hnd
    have hnd' := step03Round_ready_nodup o iter pending ready hnd
    rw [step03Monitor] at heq
    split at heq
    · simp only [Option.some_inj, Prod.mk.injEq] at heq
      obtain ⟨-, hrd, -⟩ := heq
      subst hrd
      exact hnd
    · dsimp only at heq
      split at heq
      · simp only [Option.some_inj, Prod.mk.injEq] at heq
        obtain ⟨-, hrd, -⟩ := heq
        subst hrd
        exact hnd'
      · split at heq
        · simp only [Option.some_inj, Prod.mk.injEq] at heq
          obtain ⟨-, hrd, -⟩ := heq
          subst hrd
          exact hnd'
        · split at heq
          · simp only [Option.some_inj, Prod.mk.injEq] at heq
            obtain ⟨-, hrd, -⟩ := heq
            subst hrd
            exact hnd'
          · rw [Option.map_eq_some'] at heq
            obtain ⟨⟨b', rd', tr'⟩, hout, hfe⟩ := heq
            simp only [Prod.mk.injEq] at hfe
            obtain ⟨-, hrd, -⟩ := hfe
            subst hrd
            exact ih _ _ _ _ _ _ _ hout hnd'

/-- Every job-status query of the step_03 monitor carries the
`(host, jobid)` pair of one of the jobs that were pending at entry. -/
theorem step03Monitor_polls (o : Step03Oracle) (N : Nat) :
    ∀ fuel iter elapsed pending ready b rd tr,
      step03Monitor o N fuel iter elapsed pending ready = some (b, rd, tr) →
      ∀ p ∈ tr, ∃ j ∈ pending, p = (j.host, j.jobid) := by
  intro fuel
  induction fuel with
  | zero =>
    intro iter elapsed pending ready b rd tr heq
    simp [step03Monitor] at heq
  | succ f ih =>
    intro iter elapsed pending ready b rd tr heq p hp
    rw [step03Monitor] at heq
    split at heq
    · simp only [Option.some_inj, Prod.mk.injEq] at heq
      obtain ⟨-, -, htr⟩ := heq
      subst htr
      simp at hp
    · dsimp only at heq
      split at heq
      · simp only [Option.some_inj, Prod.mk.injEq] at heq
        obtain ⟨-, -, htr⟩ := heq
        subst htr
        exact step03Round_polls o iter pending ready p hp
      · split at heq
        · simp only [Option.some_inj, Prod.mk.injEq] at heq
          obtain ⟨-, -, htr⟩ := heq
          subst htr
          exact step03Round_polls o iter pending ready p hp
        · split at heq
          · simp only [Option.some_inj, Prod.mk.injEq] at heq
            obtain ⟨-, -, htr⟩ := heq
            subst htr
            exact step03Round_polls o iter pending ready p hp
          · rw [Option.map_eq_some'] at heq
            obtain ⟨⟨b', rd', tr'⟩, hout, hfe⟩ := heq
            simp only [Prod.mk.injEq] at hfe
            obtain ⟨-, -, htr⟩ := hfe
            subst htr
            rcases List.mem_append.mp hp with hp | hp
            · exact step03Round_polls o iter pending ready p hp
            · obtain ⟨j, hj, hpe⟩ := ih _ _ _ _ _ _ _ hout p hp
              exact ⟨j, step03Round_pending_subset o iter pending ready hj, hpe⟩

/-! ### Start-phase lemmas and a cardinality helper -/

theorem step03StartJobs_mem (devs : List (String × CommitResp)) (j : Job) :
    j ∈ step03StartJobs devs ↔
      ∃ d ∈ devs, d.1 = j.host ∧ step03Track d.2 = some j.jobid := by
  unfold step03StartJobs
  rw [List.mem_filterMap]
  constructor
  · rintro ⟨d, hd, hf⟩
    rw [Option.map_eq_some'] at hf
    obtain ⟨jid, hjid, hje⟩ := hf
    cases hje
    exact ⟨d, hd, rfl, hjid⟩
  · rintro ⟨d, hd, hh, ht⟩
    refine ⟨d, hd, ?_⟩
    rw [ht]
    cases j
    cases hh
    rfl

theorem step03StartJobs_host_mem (devs : List (String × CommitResp)) (j : Job)
    (hj : j ∈ step03StartJobs devs) : j.host ∈ devs.map Prod.fst := by
  obtain ⟨d, hd, hh, -⟩ := (step03StartJobs_mem devs j).mp hj
  rw [← hh]
  exact List.mem_map_of_mem _ hd

/-- With duplicate-free hosts, a device whose commit response yields no
tracked job id contributes no job at all: no tracked job carries its host. -/
theorem step03StartJobs_host_not_mem (devs : List (String × CommitResp))
    (hnd : (devs.map Prod.fst).Nodup) (hA : String) (rA : CommitResp)
    (hdev : (hA, rA) ∈ devs) (htr : step03Track rA = none) :
    ∀ j ∈ step03StartJobs devs, j.host ≠ hA := by
  intro j hj he
  obtain ⟨d, hd, hh, ht⟩ := (step03StartJobs_mem devs j).mp hj
  have : d = (hA, rA) :=
    List.inj_on_of_nodup_map hnd hd hdev (by rw [hh, he])
  rw [this] at ht
  rw [htr] at ht
  cases ht

/-- With duplicate-free hosts, each host owns at most one tracked job. -/
theorem step03StartJobs_host_unique (devs : List (String × CommitResp))
    (hnd : (devs.map Prod.fst).Nodup) (j j' : Job)
    (hj : j ∈ step03StartJobs devs) (hj' : j' ∈ step03StartJobs devs)
    (hh : j.host = j'.host) : j = j' := by
  obtain ⟨d, hd, hdh, hdt⟩ := (step03StartJobs_mem devs j).mp hj
  obtain ⟨d', hd', hdh', hdt'⟩ := (step03StartJobs_mem devs j').mp hj'
  have hde : d = d' :=
    List.inj_on_of_nodup_map hnd hd hd' (by rw [hdh, hdh', hh])
  cases j
  cases j'
  simp only at hh hdt hdt'
  subst hh
  rw [hde] at hdt
  rw [hdt] at hdt'
  cases hdt'
  rfl

/-- A duplicate-free list missing an element of a duplicate-free superset
is strictly shorter than that superset. -/
theorem length_lt_of_nodup_missing (rd H : List String) (a : String)
    (hrd : rd.Nodup) (hH : H.Nodup) (hsub : ∀ x ∈ rd, x ∈ H)
    (haH : a ∈ H) (hard : a ∉ rd) : rd.length < H.length := by
  have h1 : rd.toFinset ⊆ H.toFinset.erase a := by
    intro x hx
    rw [List.mem_toFinset] at hx
    refine Finset.mem_erase.mpr ⟨?_, List.mem_toFinset.mpr (hsub x hx)⟩
    intro hxa
    rw [hxa] at hx
    exact hard hx
  have h2 : rd.toFinset.card ≤ (H.toFinset.erase a).card := Finset.card_le_card h1
  have h3 : (H.toFinset.erase a).card < H.toFinset.card :=
    Finset.card_erase_lt_of_mem (List.mem_toFinset.mpr haH)
  rw [List.toFinset_card_of_nodup hrd] at h2
  rw [List.toFinset_card_of_nodup hH] at h3
  omega

/-! ### Invariants of the utils_pa polling pass and monitor -/

theorem utilsRound_pending_subset (o : UtilsOracle) (iter : Nat) :
    ∀ pending ready, (utilsRound o iter pending ready).pending ⊆ pending := by
  intro pending
  induction pending with
  | nil => intro ready; simp [utilsRound]
  | cons j rest ih =>
    intro ready
    cases h : o iter j.host j.jobid <;>
      simp only [utilsRound, h]
    case exc => exact List.subset_cons_self _ _
    case finished r =>
      split
      · exact (ih _).trans (List.subset_cons_self _ _)
      · exact List.subset_cons_self _ _
    all_goals exact List.cons_subset_cons j (ih _)

theorem utilsRound_polls (o : UtilsOracle) (iter : Nat) :
    ∀ pending ready, ∀ p ∈ (utilsRound o iter pending ready).polls,
      ∃ j ∈ pending, p = (j.host, j.jobid) := by
  intro pending
  induction pending with
  | nil => intro ready p hp; simp [utilsRound] at hp
  | cons j rest ih =>
    intro ready p hp
    cases h : o iter j.host j.jobid <;>
      simp only [utilsRound, h] at hp
    case exc =>
      simp only [List.mem_singleton] at hp
      exact ⟨j, List.mem_cons_self _ _, hp⟩
    case finished r =>
      split at hp
      · rcases List.mem_cons.mp hp with hp | hp
        · exact ⟨j, List.mem_cons_self _ _, hp⟩
        · obtain ⟨j', hj', hpe⟩ := ih _ p hp
          exact ⟨j', List.mem_cons_of_mem _ hj', hpe⟩
      · simp only [List.mem_singleton] at hp
        exact ⟨j, List.mem_cons_self _ _, hp⟩
    all_goals
      rcases List.mem_cons.mp hp with hp | hp
      · exact ⟨j, List.mem_cons_self _ _, hp⟩
      · obtain ⟨j', hj', hpe⟩ := ih _ p hp
        exact ⟨j', List.mem_cons_of_mem _ hj', hpe⟩

theorem utilsRound_ready_mem (o : UtilsOracle) (iter : Nat) :
    ∀ pending ready, ∀ x ∈ (utilsRound o iter pending ready).ready,
      x ∈ ready ∨ ∃ j ∈ pending, j.host = x ∧
        o iter j.host j.jobid = .finished "OK" := by
  intro pending
  induction pending with
  | nil => intro ready x hx; simp [utilsRound] at hx; exact Or.inl hx
  | cons j rest ih =>
    intro ready x hx
    cases h : o iter j.host j.jobid <;>
      simp only [utilsRound, h] at hx
    case exc => exact Or.inl hx
    case finished r =>
      split at hx
      next hOK =>
        rcases ih _ x hx with hx' | ⟨j', hj', he, ho⟩
        · rcases (mem_insertReady x j.host ready).mp hx' with rfl | hx''
          · exact Or.inr ⟨j, List.mem_cons_self _ _, rfl, by rw [h, hOK]⟩
          · exact Or.inl hx''
        · exact Or.inr ⟨j', List.mem_cons_of_mem _ hj', he, ho⟩
      next hOK => exact Or.inl hx
    all_goals
      rcases ih _ x hx with hx' | ⟨j', hj', he, ho⟩
      · exact Or.inl hx'
      · exact Or.inr ⟨j', List.mem_cons_of_mem _ hj', he, ho⟩

/-- If some pending job's status poll this pass reports `FIN` with a
non-`OK` result, the utils_pa pass returns `False` on the spot
(an earlier exception this pass also aborts with `False`). -/
theorem utilsRound_abort_of_failed (o : UtilsOracle) (iter : Nat) :
    ∀ pending ready,
      (∃ j ∈ pending, ∃ r, o iter j.host j.jobid = .finished r ∧ r ≠ "OK") →
      (utilsRound o iter pending ready).abort = some false := by
  intro pending
  induction pending with
  | nil =>
    intro ready h
    obtain ⟨j, hj, -⟩ := h
    simp at hj
  | cons j' rest ih =>
    intro ready h
    obtain ⟨j, hj, r, ho, hr⟩ := h
    cases hcase : o iter j'.host j'.jobid <;>
      simp only [utilsRound, hcase]
    case finished r' =>
      split
      · rcases List.mem_cons.mp hj with rfl | hj'
        · rw [ho] at hcase
          injection hcase with hre
          subst hre
          exact absurd (by assumption) hr
        · exact ih _ ⟨j, hj', r, ho, hr⟩
      · rfl
    all_goals
      rcases List.mem_cons.mp hj with rfl | hj'
      · rw [ho] at hcase
        cases hcase
      · exact ih _ ⟨j, hj', r, ho, hr⟩

/-- A host is in the final `ready_devices` of the utils_pa monitor only if
it was ready at entry or a poll of a job owned by that host returned
`FIN`/`OK`. -/
theorem utilsMonitor_ready_mem (o : UtilsOracle) :
    ∀ fuel iter elapsed pending ready b rd tr,
      utilsMonitor o fuel iter elapsed pending ready = some (b, rd, tr) →
      ∀ x ∈ rd, x ∈ ready ∨ ∃ i, ∃ j ∈ pending, j.host = x ∧
        o i x j.jobid = .finished "OK" := by
  intro fuel
  induction fuel with
  | zero =>
    intro iter elapsed pending ready b rd tr heq
    simp [utilsMonitor] at heq
  | succ f ih =>
    intro iter elapsed pending ready b rd tr heq x hx
    have hmem : ∀ y ∈ (utilsRound o iter pending ready).ready,
        y ∈ ready ∨ ∃ i, ∃ j ∈ pending, j.host = y ∧
          o i y j.jobid = .finished "OK" := by
      intro y hy
      rcases utilsRound_ready_mem o iter pending ready y hy with h | ⟨j, hj, he, ho⟩
      · exact Or.inl h
      · rw [he] at ho
        exact Or.inr ⟨iter, j, hj, he, ho⟩
    rw [utilsMonitor] at heq
    split at heq
    · simp only [Option.some_inj, Prod.mk.injEq] at heq
      obtain ⟨-, hrd, -⟩ := heq
      subst hrd
      exact Or.inl hx
    · dsimp only at heq
      split at heq
      · simp only [Option.some_inj, Prod.mk.injEq] at heq
        obtain ⟨-, hrd, -⟩ := heq
        subst hrd
        exact hmem x hx
      · split at heq
        · simp only [Option.some_inj, Prod.mk.injEq] at heq
          obtain ⟨-, hrd, -⟩ := heq
          subst hrd
          exact hmem x hx
        · rw [Option.map_eq_some'] at heq
          obtain ⟨⟨b', rd', tr'⟩, hout, hfe⟩ := heq
          simp only [Prod.mk.injEq] at hfe
          obtain ⟨-, hrd, -⟩ := hfe
          subst hrd
          rcases ih _ _ _ _ _ _ _ hout x hx with h | ⟨i, j, hj, he, ho⟩
          · exact hmem x h
          · exact Or.inr ⟨i, j, utilsRound_pending_subset o iter pending ready hj,
              he, ho⟩

/-- Every job-status query of the utils_pa monitor carries the
`(host, jobid)` pair of one of the jobs pending at entry. -/
theorem utilsMonitor_polls (o : UtilsOracle) :
    ∀ fuel iter elapsed pending ready b rd tr,
      utilsMonitor o fuel iter elapsed pending ready = some (b, rd, tr) →
      ∀ p ∈ tr, ∃ j ∈ pending, p = (j.host, j.jobid) := by
  intro fuel
  induction fuel with
  | zero =>
    intro iter elapsed pending ready b rd tr heq
    simp [utilsMonitor] at heq
  | succ f ih =>
    intro iter elapsed pending ready b rd tr heq p hp
    rw [utilsMonitor] at heq
    split at heq
    · simp only [Option.some_inj, Prod.mk.injEq] at heq
      obtain ⟨-, -, htr⟩ := heq
      subst htr
      simp at hp
    · dsimp only at heq
      split at heq
      · simp only [Option.some_inj, Prod.mk.injEq] at heq
        obtain ⟨-, -, htr⟩ := heq
        subst htr
        exact utilsRound_polls o iter pending ready p hp
      · split at heq
        · simp only [Option.some_inj, Prod.mk.injEq] at heq
          obtain ⟨-, -, htr⟩ := heq
          subst htr
          exact utilsRound_polls o iter pending ready p hp
        · rw [Option.map_eq_some'] at heq
          obtain ⟨⟨b', rd', tr'⟩, hout, hfe⟩ := heq
          simp only [Prod.mk.injEq] at hfe
          obtain ⟨-, -, htr⟩ := hfe
          subst htr
          rcases List.mem_append.mp hp with hp | hp
          · exact utilsRound_polls o iter pending ready p hp
          · obtain ⟨j, hj, hpe⟩ := ih _ _ _ _ _ _ _ hout p hp
            exact ⟨j, utilsRound_pending_subset o iter pending ready hj, hpe⟩

/-- C1, counterexample.  The claim states that every commit orchestrator's
poll loop exits once the overall wall-clock timeout (300-600 seconds) has
elapsed, the deadline being checked against a clock on every iteration.
The `while jobid:` monitor loop of `Step06_CommitSync._commit_changes` in
`step_10_commit.py` has no deadline check: against a device whose job
keeps reporting `ACT` (progress 50%), after 41 iterations the virtual
wall clock has reached 615 seconds — beyond the whole 300-600-second
range — and the loop is still running (no result yet). -/
theorem step10_commit_loop_ignores_deadline :
    (step10Monitor (fun _ => .running "50") 41 0 0).1 = none ∧
    600 < (step10Monitor (fun _ => .running "50") 41 0 0).2.1 := by
  constructor
  · rfl
  · decide

/-- C1, amended.  The deadline-checked commit monitors do terminate: the
`Step03_HAConfig.commit_changes` loop (300-second deadline, 15-second
sleeps) always yields a result within 21 passes, and the
`utils_pa.commit_changes` loop (600-second deadline) within 41 passes,
because each pass either exits (all jobs terminal, ready set complete,
abort) or advances the clock by 15 seconds toward the deadline that is
re-checked on every iteration.  The `step_10_commit.py` variant is
excluded: its loop has no deadline check. -/
theorem bounded_commit_monitors_terminate :
    (∀ (devs : List (String × CommitResp)) (o : Step03Oracle),
      (step03CommitChanges devs o 21).isSome) ∧
    (∀ (devs : List (String × CommitResp)) (o : UtilsOracle),
      (utilsCommitChanges devs o 41).isSome) := by
  constructor
  · intro devs o
    unfold step03CommitChanges
    dsimp only
    split
    · rfl
    · exact step03Monitor_isSome o devs.length 20 0 0 _ _ (by omega)
  · intro devs o
    unfold utilsCommitChanges
    split
    · rfl
    · split
      · rfl
      · exact utilsMonitor_isSome o 40 0 0 _ _ (by omega)

/-! ### Claims C2, C3, C4 -/

/-- If the step_03 monitor run from the start state leaves the host of
some device out of `ready_devices`, the overall result is `False`:
success requires `len(ready_devices) == len(pa_credentials)`, and with
duplicate-free hosts the ready set cannot reach that size while missing
one of the hosts. -/
theorem step03_result_false_of_missing (devs : List (String × CommitResp))
    (o : Step03Oracle) (fuel : Nat) (b : Bool) (rd : List String)
    (tr : List (String × String)) (hA : String)
    (heq : step03Monitor o devs.length fuel 0 0 (step03StartJobs devs) [] =
      some (b, rd, tr))
    (hnd : (devs.map Prod.fst).Nodup)
    (hAmem : hA ∈ devs.map Prod.fst) (hnr : hA ∉ rd) : b = false := by
  cases b
  · rfl
  · exfalso
    have hlen := step03Monitor_true_ready o devs.length fuel 0 0 _ [] true rd tr heq rfl
    have hnd' := step03Monitor_ready_nodup o devs.length fuel 0 0 _ [] true rd tr heq
      List.nodup_nil
    have hsub : ∀ x ∈ rd, x ∈ devs.map Prod.fst := by
      intro x hx
      rcases step03Monitor_ready_mem o devs.length fuel 0 0 _ [] true rd tr heq x hx with
        h | ⟨i, j, hj, hhost, -⟩
      · simp at h
      · rw [← hhost]
        exact step03StartJobs_host_mem devs j hj
    have hlt := length_lt_of_nodup_missing rd (devs.map Prod.fst) hA hnd' hnd hsub hAmem hnr
    rw [List.length_map] at hlt
    omega

/-- C3.  Under the strict policy, if any device's commit job reaches `FIN`
with a result other than `OK`, the commit orchestrator returns failure even
when every other device's job finishes `FIN`/`OK`.  First conjunct:
`Step03_HAConfig.commit_changes` — the failed device's host never enters
`ready_devices`, so the final `len(ready_devices) == len(pa_credentials)`
test fails.  Second conjunct: `utils_pa.commit_changes` — the first poll
of the failed job hits the `return False` branch immediately. -/
theorem commit_fails_on_any_fin_non_ok :
    (∀ (devs : List (String × CommitResp)) (o : Step03Oracle) (hA jA r : String),
      (devs.map Prod.fst).Nodup →
      (⟨hA, jA⟩ : Job) ∈ step03StartJobs devs →
      (∀ i, o i hA jA = .finished r) → r ≠ "OK" →
      step03Result devs o 21 = some false) ∧
    (∀ (devs : List (String × CommitResp)) (o : UtilsOracle)
        (hA : String) (jA : Option String) (r : String) (jobs : List UJob),
      utilsStart devs = .ok jobs →
      (⟨hA, jA⟩ : UJob) ∈ jobs →
      (∀ i, o i hA jA = .finished r) → r ≠ "OK" →
      utilsResult devs o 41 = some false) := by
  constructor
  · intro devs o hA jA r hnd hjob ho hr
    have hjobs : step03StartJobs devs ≠ [] := List.ne_nil_of_mem hjob
    unfold step03Result step03CommitChanges
    dsimp only
    rw [if_neg hjobs]
    rw [show (21 : Nat) = 20+1 from rfl]
    have hs := step03Monitor_isSome o devs.length 20 0 0 (step03StartJobs devs) []
      (by omega)
    obtain ⟨⟨b, rd, tr⟩, heq⟩ := Option.isSome_iff_exists.mp hs
    rw [heq]
    simp only [Option.map_some']
    have hAmem : hA ∈ devs.map Prod.fst :=
      step03StartJobs_host_mem devs ⟨hA, jA⟩ hjob
    have hnr : hA ∉ rd := by
      intro hmem
      rcases step03Monitor_ready_mem o devs.length (20+1) 0 0 _ [] b rd tr heq hA hmem
        with h | ⟨i, j, hj, hhost, hOK⟩
      · simp at h
      · have hje : j = ⟨hA, jA⟩ :=
          step03StartJobs_host_unique devs hnd j ⟨hA, jA⟩ hj hjob hhost
        have hjid : j.jobid = jA := by rw [hje]
        rw [hjid] at hOK
        rw [ho i] at hOK
        injection hOK with h'
        exact hr h'
    have hb := step03_result_false_of_missing devs o (20+1) b rd tr hA heq hnd hAmem hnr
    rw [hb]
  · intro devs o hA jA r jobs hstart hjob ho hr
    have hne : jobs ≠ [] := List.ne_nil_of_mem hjob
    unfold utilsResult utilsCommitChanges
    rw [hstart]
    dsimp only
    rw [if_neg hne]
    rw [show (41 : Nat) = 40+1 from rfl]
    rw [utilsMonitor]
    rw [if_neg (by push_neg; exact ⟨hne, by omega⟩)]
    dsimp only
    have habort : (utilsRound o 0 jobs []).abort = some false :=
      utilsRound_abort_of_failed o 0 jobs [] ⟨⟨hA, jA⟩, hjob, r, ho 0, hr⟩
    rw [habort]
    rfl

/-- C3, witness: two devices where A's job always reports `FIN`/`FAIL`
and B's reports `FIN`/`OK` — `Step03_HAConfig.commit_changes` returns
`False`; a single device whose job reports `FIN`/`FAIL` —
`utils_pa.commit_changes` returns `False`. -/
theorem commit_fails_on_any_fin_non_ok_witness :
    step03Result [("A", .resultWith (some "1")), ("B", .resultWith (some "2"))]
      (fun _ h _ => if h = "A" then .finished "FAIL" else .finished "OK") 21 =
      some false ∧
    utilsResult [("A", .resultWith (some "1"))]
      (fun _ _ _ => .finished "FAIL") 41 = some false :=
  ⟨commit_fails_on_any_fin_non_ok.1 _ _ "A" "1" "FAIL"
      (by decide) (by decide) (fun i => by simp) (by decide),
   commit_fails_on_any_fin_non_ok.2 _ _ "A" (some "1") "FAIL" [⟨"A", some "1"⟩]
      rfl (by decide) (fun i => rfl) (by decide)⟩

/-- C2, counterexample.  The claim states that a device whose commit
response contains no job identifier is never polled.  In
`utils_pa.commit_changes` a 200 commit response with a `result` element
but no `job` child is tracked anyway (`result.findtext("job")` is `None`
and there is no `if jobid:` guard), so device A below IS polled — with a
`None` job id — on every pass until the 600-second timeout, even though
its commit response contained no job identifier; the run ends `False`. -/
theorem utils_commit_polls_device_without_job_id :
    ("A", (none : Option String)) ∈
      utilsPolls [("A", .resultWith none), ("B", .resultWith (some "5"))]
        (fun _ h _ => if h = "B" then .finished "OK" else .noJobInfo) 41 ∧
    utilsResult [("A", .resultWith none), ("B", .resultWith (some "5"))]
      (fun _ h _ => if h = "B" then .finished "OK" else .noJobInfo) 41 =
      some false := by
  constructor
  · decide
  · decide

/-- C2, amended.  In `Step03_HAConfig.commit_changes` (which, unlike
`utils_pa.commit_changes`, guards tracking with `if jobid:`), a device
whose commit response yields no tracked job id is never the target of a
job-status poll, and it still counts against overall success: the commit
returns `False`.  (In `utils_pa.commit_changes`, a transport failure or
non-200 response aborts the whole call with `False` before any poll, but
a 200 response lacking a job id is tracked and polled with a `None` id.) -/
theorem step03_jobless_device_never_polled_and_fails
    (devs : List (String × CommitResp)) (o : Step03Oracle)
    (hA : String) (rA : CommitResp)
    (hnd : (devs.map Prod.fst).Nodup)
    (hdev : (hA, rA) ∈ devs) (htr : step03Track rA = none) :
    (∀ p ∈ step03Polls devs o 21, p.1 ≠ hA) ∧
    step03Result devs o 21 = some false := by
  have hnotin : ∀ j ∈ step03StartJobs devs, j.host ≠ hA :=
    step03StartJobs_host_not_mem devs hnd hA rA hdev htr
  by_cases hjobs : step03StartJobs devs = []
  · constructor
    · intro p hp
      unfold step03Polls step03CommitChanges at hp
      dsimp only at hp
      rw [if_pos hjobs] at hp
      simp at hp
    · unfold step03Result step03CommitChanges
      dsimp only
      rw [if_pos hjobs]
      rfl
  · rw [show (21 : Nat) = 20+1 from rfl]
    have hs := step03Monitor_isSome o devs.length 20 0 0 (step03StartJobs devs) []
      (by omega)
    obtain ⟨⟨b, rd, tr⟩, heq⟩ := Option.isSome_iff_exists.mp hs
    constructor
    · intro p hp
      unfold step03Polls step03CommitChanges at hp
      dsimp only at hp
      rw [if_neg hjobs] at hp
      rw [heq] at hp
      simp only [Option.map_some', Option.getD_some] at hp
      obtain ⟨j, hj, hpe⟩ := step03Monitor_polls o devs.length (20+1) 0 0 _ [] b rd tr
        heq p hp
      rw [hpe]
      exact hnotin j hj
    · unfold step03Result step03CommitChanges
      dsimp only
      rw [if_neg hjobs, heq]
      simp only [Option.map_some']
      have hAmem : hA ∈ devs.map Prod.fst :=
        List.mem_map.mpr ⟨(hA, rA), hdev, rfl⟩
      have hnr : hA ∉ rd := by
        intro hmem
        rcases step03Monitor_ready_mem o devs.length (20+1) 0 0 _ [] b rd tr heq hA hmem
          with h | ⟨i, j, hj, hhost, -⟩
        · simp at h
        · exact hnotin j hj hhost
      have hb := step03_result_false_of_missing devs o (20+1) b rd tr hA heq hnd hAmem hnr
      rw [hb]

/-- C2 (amended), witness: device A's commit response has a `result`
element but no job id; even though device B's job polls `FIN`/`OK`, the
step_03 commit reports `False`. -/
theorem step03_jobless_device_never_polled_and_fails_witness :
    step03Result [("A", CommitResp.resultWith none), ("B", .resultWith (some "5"))]
      (fun _ _ _ => .finished "OK") 21 = some false :=
  (step03_jobless_device_never_polled_and_fails
    [("A", CommitResp.resultWith none), ("B", .resultWith (some "5"))]
    (fun _ _ _ => .finished "OK") "A" (.resultWith none)
    (by decide) (by decide) rfl).2

/-- C4.  Every job-status poll of both commit orchestrators is addressed
to the `(host, jobid)` pair of one of the tracked jobs — the query goes to
the host that produced the job — and a host enters `ready_devices` only
when a poll of ITS OWN `(host, jobid)` returns `FIN`/`OK`: if the oracle
never answers `FIN`/`OK` at host `h`, then `h` is never marked ready, no
matter what any other host (possibly sharing the same numeric job id)
answers. -/
theorem commit_polls_keyed_by_host_and_jobid :
    (∀ (devs : List (String × CommitResp)) (o : Step03Oracle) (fuel : Nat),
      ∀ p ∈ step03Polls devs o fuel,
        ∃ j ∈ step03StartJobs devs, p = (j.host, j.jobid)) ∧
    (∀ (devs : List (String × CommitResp)) (o : Step03Oracle) (fuel : Nat) (h : String),
      (∀ i jd, o i h jd ≠ .finished "OK") → h ∉ step03Ready devs o fuel) ∧
    (∀ (devs : List (String × CommitResp)) (o : UtilsOracle) (fuel : Nat),
      ∀ p ∈ utilsPolls devs o fuel, ∃ jobs, utilsStart devs = .ok jobs ∧
        ∃ j ∈ jobs, p = (j.host, j.jobid)) ∧
    (∀ (devs : List (String × CommitResp)) (o : UtilsOracle) (fuel : Nat) (h : String),
      (∀ i jd, o i h jd ≠ .finished "OK") → h ∉ utilsReady devs o fuel) := by
  refine ⟨?_, ?_, ?_, ?_⟩
  · intro devs o fuel p hp
    unfold step03Polls step03CommitChanges at hp
    dsimp only at hp
    by_cases hjobs : step03StartJobs devs = []
    · rw [if_pos hjobs] at hp
      simp at hp
    · rw [if_neg hjobs] at hp
      cases heq : step03Monitor o devs.length fuel 0 0 (step03StartJobs devs) [] with
      | none => rw [heq] at hp; simp at hp
      | some out =>
        obtain ⟨b, rd, tr⟩ := out
        rw [heq] at hp
        simp only [Option.map_some', Option.getD_some] at hp
        exact step03Monitor_polls o devs.length fuel 0 0 _ [] b rd tr heq p hp
  · intro devs o fuel h ho hmem
    unfold step03Ready step03CommitChanges at hmem
    dsimp only at hmem
    by_cases hjobs : step03StartJobs devs = []
    · rw [if_pos hjobs] at hmem
      simp at hmem
    · rw [if_neg hjobs] at hmem
      cases heq : step03Monitor o devs.length fuel 0 0 (step03StartJobs devs) [] with
      | none => rw [heq] at hmem; simp at hmem
      | some out =>
        obtain ⟨b, rd, tr⟩ := out
        rw [heq] at hmem
        simp only [Option.map_some', Option.getD_some] at hmem
        rcases step03Monitor_ready_mem o devs.length fuel 0 0 _ [] b rd tr heq h hmem
          with hh | ⟨i, j, hj, hhost, hOK⟩
        · simp at hh
        · exact ho i j.jobid hOK
  · intro devs o fuel p hp
    unfold utilsPolls utilsCommitChanges at hp
    cases hstart : utilsStart devs with
    | error b => rw [hstart] at hp; simp at hp
    | ok jobs =>
      rw [hstart] at hp
      dsimp only at hp
      by_cases hjobs : jobs = []
      · rw [if_pos hjobs] at hp
        simp at hp
      · rw [if_neg hjobs] at hp
        cases heq : utilsMonitor o fuel 0 0 jobs [] with
        | none => rw [heq] at hp; simp at hp
        | some out =>
          obtain ⟨b, rd, tr⟩ := out
          rw [heq] at hp
          simp only [Option.map_some', Option.getD_some] at hp
          obtain ⟨j, hj, hpe⟩ := utilsMonitor_polls o fuel 0 0 jobs [] b rd tr heq p hp
          exact ⟨jobs, rfl, j, hj, hpe⟩
  · intro devs o fuel h ho hmem
    unfold utilsReady utilsCommitChanges at hmem
    cases hstart : utilsStart devs with
    | error b => rw [hstart] at hmem; simp at hmem
    | ok jobs =>
      rw [hstart] at hmem
      dsimp only at hmem
      by_cases hjobs : jobs = []
      · rw [if_pos hjobs] at hmem
        simp at hmem
      · rw [if_neg hjobs] at hmem
        cases heq : utilsMonitor o fuel 0 0 jobs [] with
        | none => rw [heq] at hmem; simp at hmem
        | some out =>
          obtain ⟨b, rd, tr⟩ := out
          rw [heq] at hmem
          simp only [Option.map_some', Option.getD_some] at hmem
          rcases utilsMonitor_ready_mem o fuel 0 0 jobs [] b rd tr heq h hmem
            with hh | ⟨i, j, hj, hhost, hOK⟩
          · simp at hh
          · exact ho i j.jobid hOK

/-- C4, witness: two devices sharing job id "7"; host B's polls report
`FIN`/`OK`, host A's only `ACT` — A is never marked ready despite the
job-id collision with B's succeeding job. -/
theorem commit_polls_keyed_by_host_and_jobid_witness :
    "A" ∉ step03Ready [("A", .resultWith (some "7")), ("B", .resultWith (some "7"))]
      (fun _ h _ => if h = "B" then .finished "OK" else .running "50") 21 :=
  commit_polls_keyed_by_host_and_jobid.2.1 _ _ 21 "A" (by
    intro i jd hcon
    rw [if_neg (by decide)] at hcon
    exact absurd hcon (by decide))

/-! ### Claims C5, C6 -/

/-- C5.  When the initially observed sync state is `not synchronized`,
both `_force_sync_config` variants (step_06_commit.py and
step_10_commit.py) issue exactly one sync-to-remote trigger request —
whatever the trigger outcome and whatever any subsequent wait-loop poll
reports (the wait loop only polls the state, it never re-triggers, even
when a poll reports `not synchronized` again). -/
theorem sync_triggers_exactly_once_on_not_synchronized :
    (∀ (trig : TriggerResp) (o : Nat → SyncCheckResp),
      (step06ForceSync (.state (some "not synchronized")) trig o).2.1 = 1) ∧
    (∀ (trig : TriggerResp) (o : Nat → SyncCheckResp),
      (step10ForceSync (.state (some "not synchronized")) trig o).2.1 = 1) := by
  constructor <;> intro trig o <;> cases trig <;> rfl

/-- C6.  When the initially observed sync state is `synchronized`, both
`_force_sync_config` variants return success immediately, with zero
sync-to-remote trigger requests and zero wait-loop polls. -/
theorem sync_immediate_success_when_synchronized :
    (∀ (trig : TriggerResp) (o : Nat → SyncCheckResp),
      step06ForceSync (.state (some "synchronized")) trig o = (true, 0, 0)) ∧
    (∀ (trig : TriggerResp) (o : Nat → SyncCheckResp),
      step10ForceSync (.state (some "synchronized")) trig o = (some true, 0, 0)) := by
  constructor <;> intro trig o <;> rfl

/-! ### Active-node resolver lemmas and claims C7, C8 -/

theorem step04ScanL_none (resps : Nat → HAStateResp) :
    ∀ l, (∀ i ∈ l, isActiveResp (resps i) = false) →
      step04ScanL resps l = ([], l) := by
  intro l
  induction l with
  | nil => intro h; rfl
  | cons a rest ih =>
    intro h
    have ha := h a (List.mem_cons_self a rest)
    have hrest := ih (fun i hi => h i (List.mem_cons_of_mem a hi))
    simp [step04ScanL, ha, hrest]

theorem step04ScanL_found (resps : Nat → HAStateResp) :
    ∀ (l1 : List Nat) (i0 : Nat) (l2 : List Nat),
      (∀ i ∈ l1, isActiveResp (resps i) = false) →
      isActiveResp (resps i0) = true →
      step04ScanL resps (l1 ++ i0 :: l2) = ([i0], l1 ++ [i0]) := by
  intro l1
  induction l1 with
  | nil =>
    intro i0 l2 _ hact
    simp [step04ScanL, hact]
  | cons a rest ih =>
    intro i0 l2 h hact
    have ha := h a (List.mem_cons_self a rest)
    have hrest := ih i0 l2 (fun i hi => h i (List.mem_cons_of_mem a hi)) hact
    simp [step04ScanL, ha, hrest]

/-- Decomposition of `List.range n` around an inner index. -/
theorem range_decomp (n i0 : Nat) (h : i0 < n) :
    List.range n =
      List.range i0 ++ i0 ::
        ((List.range (n - i0 - 1)).map (fun x => i0 + (x + 1))) := by
  have h1 : n = i0 + ((n - i0 - 1) + 1) := by omega
  conv_lhs => rw [h1]
  rw [List.range_add, List.range_succ_eq_map, List.map_cons, List.map_map]
  simp [Function.comp]

theorem step04Loop_none (o : Nat → Nat → HAStateResp) (n : Nat) :
    ∀ rem a,
      (∀ t, a ≤ t → t < a + rem → ∀ i < n, isActiveResp (o t i) = false) →
      (step04Loop o n rem a).1 = [] := by
  intro rem
  induction rem with
  | zero => intro a _; rfl
  | succ r ih =>
    intro a h
    have hscan : step04ScanL (o a) (List.range n) = ([], List.range n) :=
      step04ScanL_none (o a) _
        (fun i hi => h a (Nat.le_refl a) (by omega) i (List.mem_range.mp hi))
    unfold step04Loop
    dsimp only
    rw [hscan]
    rw [if_neg (by simp)]
    exact ih (a+1) (fun t ht1 ht2 i hi => h t (by omega) (by omega) i hi)

theorem step04Loop_found (o : Nat → Nat → HAStateResp) (n k i0 : Nat)
    (hscan : step04ScanL (o k) (List.range n) = ([i0], List.range i0 ++ [i0]))
    (hbefore : ∀ a < k, ∀ i < n, isActiveResp (o a i) = false) :
    ∀ rem a, a ≤ k → k < a + rem →
      ∃ qs, step04Loop o n rem a = ([i0], qs) ∧
        ∀ q ∈ qs, q.1 < k ∨ (q.1 = k ∧ q.2 ≤ i0) := by
  intro rem
  induction rem with
  | zero => intro a h1 h2; omega
  | succ r ih =>
    intro a h1 h2
    rcases Nat.eq_or_lt_of_le h1 with rfl | hlt
    · unfold step04Loop
      dsimp only
      rw [hscan]
      rw [if_pos (by simp)]
      refine ⟨(List.range i0 ++ [i0]).map (fun i => (a, i)), rfl, ?_⟩
      intro q hq
      rw [List.mem_map] at hq
      obtain ⟨i, hi, rfl⟩ := hq
      refine Or.inr ⟨rfl, ?_⟩
      rcases List.mem_append.mp hi with hil | hir
      · exact Nat.le_of_lt (List.mem_range.mp hil)
      · simp only [List.mem_singleton] at hir
        omega
    · have hscanA : step04ScanL (o a) (List.range n) = ([], List.range n) :=
        step04ScanL_none _ _ (fun i hi => hbefore a hlt i (List.mem_range.mp hi))
      unfold step04Loop
      dsimp only
      rw [hscanA]
      rw [if_neg (by simp)]
      obtain ⟨qs, hqs, hprop⟩ := ih (a+1) (by omega) (by omega)
      rw [hqs]
      refine ⟨(List.range n).map (fun i => (a, i)) ++ qs, rfl, ?_⟩
      intro q hq
      rcases List.mem_append.mp hq with hql | hqr
      · rw [List.mem_map] at hql
        obtain ⟨i, _, rfl⟩ := hql
        exact Or.inl hlt
      · exact hprop q hqr

/-- C7.  On the first attempt `k` in which some device reports `active`,
`Step04_IdentifyActive.execute` persists exactly the earliest such device
(index `i0`) in input order, without the fallback warning, and every
query it ever makes is either in an earlier attempt or, within attempt
`k`, at an index at most `i0` — the devices after `i0` are not queried in
attempt `k`, and a later device also reporting `active` is never the
result. -/
theorem find_active_returns_first_active (o : Nat → Nat → HAStateResp)
    (n k i0 : Nat) (hk : k < 5)
    (hbefore : ∀ a < k, ∀ i < n, isActiveResp (o a i) = false)
    (hi0 : i0 < n) (hact : isActiveResp (o k i0) = true)
    (hleast : ∀ j < i0, isActiveResp (o k j) = false) :
    step04Active o n = some [i0] ∧ step04Fallback o n = some false ∧
      ∀ q ∈ step04Queries o n, q.1 < k ∨ (q.1 = k ∧ q.2 ≤ i0) := by
  have hscan : step04ScanL (o k) (List.range n) = ([i0], List.range i0 ++ [i0]) := by
    rw [range_decomp n i0 hi0]
    exact step04ScanL_found (o k) (List.range i0) i0 _
      (fun i hi => hleast i (List.mem_range.mp hi)) hact
  obtain ⟨qs, hloop, hprop⟩ :=
    step04Loop_found o n k i0 hscan hbefore 5 0 (by omega) (by omega)
  have hexec : step04Execute o n = some ([i0], false, qs) := by
    unfold step04Execute
    dsimp only
    rw [hloop]
    rw [if_pos (by simp)]
  refine ⟨?_, ?_, ?_⟩
  · unfold step04Active
    rw [hexec]
    rfl
  · unfold step04Fallback
    rw [hexec]
    rfl
  · unfold step04Queries
    rw [hexec]
    exact hprop

/-- C7, witness: both devices report `active` on the very first attempt;
the resolver returns device 0 (the earliest), not device 1, and without
the fallback warning. -/
theorem find_active_returns_first_active_witness :
    step04Active (fun _ _ => HAStateResp.state "active") 2 = some [0] ∧
    step04Fallback (fun _ _ => HAStateResp.state "active") 2 = some false :=
  ⟨(find_active_returns_first_active (fun _ _ => HAStateResp.state "active")
      2 0 0 (by omega) (fun a ha => absurd ha (Nat.not_lt_zero a)) (by omega)
      (by decide) (fun j hj => absurd hj (Nat.not_lt_zero j))).1,
   (find_active_returns_first_active (fun _ _ => HAStateResp.state "active")
      2 0 0 (by omega) (fun a ha => absurd ha (Nat.not_lt_zero a)) (by omega)
      (by decide) (fun j hj => absurd hj (Nat.not_lt_zero j))).2.1⟩

/-- C8.  Under the fresh-deployment fallback policy, if no device reports
`active` on any of the 5 attempts (transport failures, non-200 responses
and missing state elements all counting as not-active for that attempt),
`Step04_IdentifyActive.execute` returns the first device of the input
list with the fallback warning recorded, and does not raise an error
(the step persists a result). -/
theorem find_active_falls_back_to_first (o : Nat → Nat → HAStateResp)
    (n : Nat) (hn : 0 < n)
    (hnone : ∀ a < 5, ∀ i < n, isActiveResp (o a i) = false) :
    step04Active o n = some [0] ∧ step04Fallback o n = some true := by
  have hloop : (step04Loop o n 5 0).1 = [] :=
    step04Loop_none o n 5 0 (fun t _ ht2 i hi => hnone t (by omega) i hi)
  have hexec : step04Execute o n = some ([0], true, (step04Loop o n 5 0).2) := by
    unfold step04Execute
    dsimp only
    rw [if_neg (by simp [hloop])]
    rw [if_neg (by omega)]
  constructor
  · unfold step04Active
    rw [hexec]
    rfl
  · unfold step04Fallback
    rw [hexec]
    rfl

/-- C8, witness: two devices that report `passive` on every attempt (and
would transport-fail identically); the fallback result is device 0 with
the warning flag. -/
theorem find_active_falls_back_to_first_witness :
    step04Active (fun _ _ => HAStateResp.state "passive") 2 = some [0] ∧
    step04Fallback (fun _ _ => HAStateResp.state "passive") 2 = some true :=
  find_active_falls_back_to_first (fun _ _ => HAStateResp.state "passive") 2
    (by omega)
    (fun a _ i _ => (by decide : isActiveResp (HAStateResp.state "passive") = false))

/-! ### Claims C9, C10 -/

theorem step04ScanL_len (resps : Nat → HAStateResp) :
    ∀ l, (step04ScanL resps l).1 = [] ∨ ∃ i, (step04ScanL resps l).1 = [i] := by
  intro l
  induction l with
  | nil => exact Or.inl rfl
  | cons a rest ih =>
    unfold step04ScanL
    dsimp only
    split
    · exact Or.inr ⟨a, rfl⟩
    · exact ih

theorem step04Loop_len (o : Nat → Nat → HAStateResp) (n : Nat) :
    ∀ rem a, (step04Loop o n rem a).1 = [] ∨
      ∃ i, (step04Loop o n rem a).1 = [i] := by
  intro rem
  induction rem with
  | zero => intro a; exact Or.inl rfl
  | succ r ih =>
    intro a
    unfold step04Loop
    dsimp only
    split
    · rcases step04ScanL_len (o a) (List.range n) with h | ⟨i, h⟩
      · exact absurd h (by assumption)
      · exact Or.inr ⟨i, h⟩
    · exact ih (a+1)

/-- C9.  In `Step06_CommitSync.execute` of step_10_commit.py, when no
entry of the prior step's `config_results` has the value `'success'`, the
step issues no commit and no sync request at all (empty request trace),
writes the completion record with `commit_skipped` and `sync_skipped`
set, and returns `True`. -/
theorem step10_skips_commit_without_changes
    (activeHosts : List String) (host : String) (rest : List String)
    (configResults : List (String × String)) (c : CommitResp)
    (o : Nat → JobPollResp) (init : SyncCheckResp) (trig : TriggerResp)
    (so : Nat → SyncCheckResp) (fuel : Nat)
    (hact : activeHosts = host :: rest)
    (hns : ∀ kv ∈ configResults, kv.2 ≠ "success") :
    step10Execute activeHosts configResults c o init trig so fuel =
      some ⟨true, true, true, []⟩ := by
  subst hact
  have hany : configResults.any (fun kv => kv.2 == "success") = false := by
    rw [List.any_eq_false]
    intro kv hkv
    simp only [beq_iff_eq]
    exact hns kv hkv
  unfold step10Execute
  dsimp only
  rw [if_neg (by simp [hany])]

/-- C9, witness: config results with no `'success'` value — the step
returns `True` with both skip flags and an empty request trace. -/
theorem step10_skips_commit_without_changes_witness :
    step10Execute ["A"] [("interfaces", "skipped"), ("zones", "failed")]
      .exc (fun _ => .exc) .exc .exc (fun _ => .exc) 0 =
      some ⟨true, true, true, []⟩ :=
  step10_skips_commit_without_changes ["A"] "A" []
    [("interfaces", "skipped"), ("zones", "failed")]
    .exc (fun _ => .exc) .exc .exc (fun _ => .exc) 0 rfl (by decide)

/-- C10.  `Step04_IdentifyActive.execute` always persists exactly one
active device (a singleton list — the first device observed active, or
the fallback first device), and the downstream commit-and-sync steps
address every commit, job-status and sync request to
`active_fw_list[0]` only: every host in the request trace of
`Step06_CommitSync.execute` (both the step_10_commit.py and the
step_06_commit.py variant) equals the first element of the active list. -/
theorem single_active_device_targeted :
    (∀ (o : Nat → Nat → HAStateResp) (n : Nat), 0 < n →
      (step04Execute o n).map (fun out => out.1.length) = some 1) ∧
    (∀ activeHosts host rest configResults c o init trig so fuel out,
      activeHosts = host :: rest →
      step10Execute activeHosts configResults c o init trig so fuel = some out →
      out.requestHosts.all (fun h => h == host) = true) ∧
    (∀ activeHosts host rest c o init trig so fuel out,
      activeHosts = host :: rest →
      step06Execute activeHosts c o init trig so fuel = some out →
      out.2.all (fun h => h == host) = true) := by
  refine ⟨?_, ?_, ?_⟩
  · intro o n hn
    unfold step04Execute
    dsimp only
    rcases step04Loop_len o n 5 0 with h | ⟨i, h⟩
    · rw [if_neg (by simp [h])]
      rw [if_neg (by omega)]
      rfl
    · rw [if_pos (by simp [h])]
      simp [h]
  · intro activeHosts host rest configResults c o init trig so fuel out hact heq
    subst hact
    unfold step10Execute at heq
    dsimp only at heq
    split at heq
    · split at heq
      · simp at heq
      · rw [Option.some_inj] at heq
        subst heq
        rw [List.all_eq_true]
        intro h hh
        rw [beq_iff_eq]
        exact List.eq_of_mem_replicate hh
      · split at heq <;>
          (rw [Option.some_inj] at heq
           subst heq
           rw [List.all_eq_true]
           intro h hh
           rw [beq_iff_eq]
           rcases List.mem_append.mp hh with h1 | h1 <;>
             exact List.eq_of_mem_replicate h1)
    · rw [Option.some_inj] at heq
      subst heq
      rfl
  · intro activeHosts host rest c o init trig so fuel out hact heq
    subst hact
    unfold step06Execute at heq
    dsimp only at heq
    split at heq
    · simp at heq
    · rw [Option.some_inj] at heq
      subst heq
      rw [List.all_eq_true]
      intro h hh
      rw [beq_iff_eq]
      exact List.eq_of_mem_replicate hh
    · rw [Option.some_inj] at heq
      subst heq
      rw [List.all_eq_true]
      intro h hh
      rw [beq_iff_eq]
      rcases List.mem_append.mp hh with h1 | h1 <;>
        exact List.eq_of_mem_replicate h1

/-- C10, witness: one never-active device yields the singleton fallback
list, and in concrete runs of both execute variants (commit job `FIN/OK`,
sync already synchronized) every one of the three HTTP requests goes to
host "A". -/
theorem single_active_device_targeted_witness :
    ((step04Execute (fun _ _ => HAStateResp.state "passive") 1).map
      (fun out => out.1.length) = some 1) ∧
    ((Step10Out.mk true false false ["A", "A", "A"]).requestHosts.all
      (fun h => h == "A") = true) ∧
    ((true, ["A", "A", "A"]) : Bool × List String).2.all
      (fun h => h == "A") = true :=
  ⟨single_active_device_targeted.1 (fun _ _ => HAStateResp.state "passive") 1
      (by omega),
   single_active_device_targeted.2.1 ["A"] "A" [] [("x", "success")]
      (.resultWith (some "9")) (fun _ => .finished "OK")
      (.state (some "synchronized")) .exc (fun _ => .exc) 1
      ⟨true, false, false, ["A", "A", "A"]⟩ rfl (by decide),
   single_active_device_targeted.2.2 ["A"] "A" []
      (.resultWith (some "9")) (fun _ => .finished "OK")
      (.state (some "synchronized")) .exc (fun _ => .exc) 1
      (true, ["A", "A", "A"]) rfl (by decide)⟩

end PA
